import Mathlib

/-!
# Verification of the `agora_analytica.analytics.text` module

Shallow embedding of `src/agora_analytica/analytics/text.py`
(`VoikkoTokenizer` and `TextTopics`) and proofs about it.

Modelling conventions:
* The external Voikko morphological engine is an `Oracle`: a pure pair of
  functions `analyze` / `suggest` (the spec declares both pure functions of
  the word).
* A morphological analysis is the pair of its `CLASS` tag (possibly absent,
  as `dict.get("CLASS", None)` may return `None`) and its `BASEFORM`.
* The tokenizer's mutable state (`stem_map`, the memoization dict of the
  `@cached` `analyze` method, and counters of actual Voikko invocations)
  is threaded explicitly as a `TokState`.
* Python's float comparison `len(r) * 0.5 < err_count` is modelled exactly
  by the integer comparison `len r < 2 * err` (0.5 is exact in binary
  floating point and both sides are small integers).
* Python's `\w` word character class is modelled as alphanumeric-or-underscore.
-/

/-- One morphological analysis returned by Voikko: the `CLASS` tag
(`morph.get("CLASS", None)` can be absent) and the `BASEFORM` string. -/
structure Analysis where
  CLASS : Option String
  BASEFORM : String
deriving DecidableEq, Repr

/-- The external Voikko engine, assumed pure: `analyze` returns the list of
morphological analyses ( `[]` = unknown word ) and `suggest` returns the
ranked spelling suggestions ( `[]` = no suggestion ). -/
structure Oracle where
  analyze : String → List Analysis
  suggest : String → List String

/-- Mutable state of one `VoikkoTokenizer` instance:
`stem_map` is the instance's stem cache (`self.stem_map`),
`analysis_cache` is the dict of the `@cached({})` decorator on
`VoikkoTokenizer.analyze`, and the two counters count actual calls into the
Voikko engine (`self.voikko.analyze` / `self.voikko.suggest`).
Association lists are consed in front, so `List.lookup` sees the newest
binding first, matching Python dict update. -/
structure TokState where
  stem_map : List (String × String)
  analysis_cache : List (String × List Analysis)
  analyze_calls : Nat
  suggest_calls : Nat
deriving DecidableEq, Repr

/-- The empty caches of a freshly constructed tokenizer. -/
def TokState.init : TokState :=
  { stem_map := [], analysis_cache := [], analyze_calls := 0, suggest_calls := 0 }

/-- `VoikkoTokenizer.analyze`, memoized by the `@cached({})` decorator:
a cache hit returns the stored analyses without touching Voikko, a miss
calls `self.voikko.analyze`, stores and returns the result. -/
def analyzeMemo (O : Oracle) (s : TokState) (w : String) : List Analysis × TokState :=
  match s.analysis_cache.lookup w with
  | some a => (a, s)
  | none =>
      let a := O.analyze w
      (a, { s with analysis_cache := (w, a) :: s.analysis_cache,
                   analyze_calls := s.analyze_calls + 1 })

/-- Python `str.lower()`, modelled characterwise (`Char.toLower`; like the
rest of the embedding this covers the ASCII letters). -/
def lowerStr (s : String) : String := ⟨s.data.map Char.toLower⟩

/-- Python `\w` (word character), modelled as alphanumeric or underscore. -/
def isWordChar (c : Char) : Bool := c.isAlphanum || c == '_'

/-- Scanner state for the word-extraction regex
`(\w+-(?:\w+)+|\w{1,})|(?::[\w]*)` of `VoikkoTokenizer.regex_words`:
either between matches, inside the first word-character run, just past a
dash, inside the run after the dash, or skipping a colon-annotation. -/
inductive ScanMode where
  | idle
  | word1 (acc : List Char)
  | dash (acc : List Char)
  | word2 (acc1 acc2 : List Char)
  | colon
deriving Repr

/-- Transition taken from between matches on character `c`: a word character
opens a run, a colon opens a `(?::[\w]*)` annotation, anything else is skipped. -/
def idleStep (c : Char) : ScanMode :=
  if isWordChar c then ScanMode.word1 [c]
  else if c == ':' then ScanMode.colon
  else ScanMode.idle

/-- One left-to-right pass of `re.findall(self.regex_words, ·)`: emits for
every match of the first alternative `\w+-(?:\w+)+` the dash-joined compound,
for every match of `\w+` the run, and nothing for the colon branch
(whose empty capture group Python filters out with `x != ""`). -/
def extractAux : ScanMode → List Char → List String
  | ScanMode.idle, [] => []
  | ScanMode.colon, [] => []
  | ScanMode.word1 acc, [] => [acc.asString]
  | ScanMode.dash acc, [] => [acc.asString]
  | ScanMode.word2 a b, [] => [(a ++ '-' :: b).asString]
  | ScanMode.idle, c :: cs => extractAux (idleStep c) cs
  | ScanMode.colon, c :: cs =>
      if isWordChar c then extractAux ScanMode.colon cs
      else extractAux (idleStep c) cs
  | ScanMode.word1 acc, c :: cs =>
      if isWordChar c then extractAux (ScanMode.word1 (acc ++ [c])) cs
      else if c == '-' then extractAux (ScanMode.dash acc) cs
      else acc.asString :: extractAux (idleStep c) cs
  | ScanMode.dash acc, c :: cs =>
      if isWordChar c then extractAux (ScanMode.word2 acc [c]) cs
      else acc.asString :: extractAux (idleStep c) cs
  | ScanMode.word2 a b, c :: cs =>
      if isWordChar c then extractAux (ScanMode.word2 a (b ++ [c])) cs
      else (a ++ '-' :: b).asString :: extractAux (idleStep c) cs

/-- Line 99 of the source: the word candidates of a paragraph,
`[x for x in re.findall(self.regex_words, sentence.lower()) if x != ""]`. -/
def extractWords (sentence : String) : List String :=
  (extractAux ScanMode.idle (lowerStr sentence).data).filter (fun x => x != "")

/-- `FINNISH_STOPWORD_CLASSES` of `_stem`. -/
def FINNISH_STOPWORD_CLASSES : List String :=
  ["huudahdussana", "seikkasana", "lukusana", "asemosana", "sidesana",
   "suhdesana", "kieltosana"]

/-- `_class not in FINNISH_STOPWORD_CLASSES` is false for an absent
`CLASS` tag (`None` is not in the list), so only a present stopword tag
counts as a stopword class. -/
def isStopClass : Option String → Bool
  | none => false
  | some c => FINNISH_STOPWORD_CLASSES.contains c

/-- The `for _word in analysis` loop of `_stem`: lowercase base form of the
first analysis whose class is not a stopword class, if any. -/
def firstBaseform : List Analysis → Option String
  | [] => none
  | a :: rest =>
      if isStopClass a.CLASS then firstBaseform rest
      else some (lowerStr a.BASEFORM)

/-- State just after `_stem` has found an empty analysis and evaluated
`self.voikko.suggest(word) or [None]`: one real `suggest` call is made. -/
def afterSuggest (O : Oracle) (s : TokState) (w : String) : TokState :=
  let s1 := (analyzeMemo O s w).2
  { s1 with suggest_calls := s1.suggest_calls + 1 }

/-- `_stem(word)` in the `use_suggestions=False` regime (the nested call made
from a spelling suggestion): stem-cache lookup, memoized analysis, error
counting, first non-stopword base form, fallback to the lowercase raw word.
Returns the stems, the new state, and the updated `err_count`. -/
def stem0 (O : Oracle) (w : String) (s : TokState) (err : Nat) :
    List String × TokState × Nat :=
  match s.stem_map.lookup w with
  | some st => ([st], s, err)
  | none =>
    let r := analyzeMemo O s w
    if r.1.isEmpty then
      ([lowerStr w],
       { r.2 with stem_map := (w, lowerStr w) :: r.2.stem_map }, err + 1)
    else
      match firstBaseform r.1 with
      | some bf => ([bf], { r.2 with stem_map := (w, bf) :: r.2.stem_map }, err)
      | none =>
          ([lowerStr w],
           { r.2 with stem_map := (w, lowerStr w) :: r.2.stem_map }, err)

/-- `_stem` mapped over the paragraph's words (`chain(*map(_stem, r))`),
threading the caches and the `err_count` left to right. -/
def stemWords0 (O : Oracle) : List String → TokState → Nat →
    List String × TokState × Nat
  | [], s, err => ([], s, err)
  | w :: ws, s, err =>
    let r1 := stem0 O w s err
    let r2 := stemWords0 O ws r1.2.1 r1.2.2
    (r1.1 ++ r2.1, r2.2.1, r2.2.2)

/-- Lines 99–101 of `tokenize_paragraph` for `use_suggestions=False`:
extracted words, stemmed and flattened, empty stems filtered out
(`if x`), together with the final state and `err_count`. -/
def tpCore0 (O : Oracle) (sentence : String) (s : TokState) :
    List String × TokState × Nat :=
  let r := stemWords0 O (extractWords sentence) s 0
  (r.1.filter (fun x => x != ""), r.2.1, r.2.2)

/-- `tokenize_paragraph(sentence, use_suggestions=False)`: the noise
rejection `len(r) * 0.5 < err_count` (exactly `len r < 2 * err` over the
integers) discards the whole paragraph. -/
def tokenize_paragraph0 (O : Oracle) (sentence : String) (s : TokState) :
    List String × TokState :=
  let r := tpCore0 O sentence s
  if r.1.length < 2 * r.2.2 then ([], r.2.1) else (r.1, r.2.1)

/-- `_stem(word)` in the default `use_suggestions=True` regime: like `stem0`,
but an unknown word additionally asks Voikko for spelling suggestions, and a
first suggestion is re-tokenized by `tokenize_paragraph(·, use_suggestions=False)`
and returned directly (nothing is cached under `word` itself on that path). -/
def stem1 (O : Oracle) (w : String) (s : TokState) (err : Nat) :
    List String × TokState × Nat :=
  match s.stem_map.lookup w with
  | some st => ([st], s, err)
  | none =>
    let r := analyzeMemo O s w
    if r.1.isEmpty then
      let s2 := afterSuggest O s w
      match (O.suggest w).head? with
      | some sugg =>
          let t := tokenize_paragraph0 O sugg s2
          (t.1, t.2, err + 1)
      | none =>
          ([lowerStr w],
           { s2 with stem_map := (w, lowerStr w) :: s2.stem_map }, err + 1)
    else
      match firstBaseform r.1 with
      | some bf => ([bf], { r.2 with stem_map := (w, bf) :: r.2.stem_map }, err)
      | none =>
          ([lowerStr w],
           { r.2 with stem_map := (w, lowerStr w) :: r.2.stem_map }, err)

/-- `_stem` with suggestions mapped over the paragraph's words. -/
def stemWords1 (O : Oracle) : List String → TokState → Nat →
    List String × TokState × Nat
  | [], s, err => ([], s, err)
  | w :: ws, s, err =>
    let r1 := stem1 O w s err
    let r2 := stemWords1 O ws r1.2.1 r1.2.2
    (r1.1 ++ r2.1, r2.2.1, r2.2.2)

/-- Lines 99–101 of `tokenize_paragraph` for the default
`use_suggestions=True`. -/
def tpCore1 (O : Oracle) (sentence : String) (s : TokState) :
    List String × TokState × Nat :=
  let r := stemWords1 O (extractWords sentence) s 0
  (r.1.filter (fun x => x != ""), r.2.1, r.2.2)

/-- `tokenize_paragraph(sentence)` with the default `use_suggestions=True`. -/
def tokenize_paragraph1 (O : Oracle) (sentence : String) (s : TokState) :
    List String × TokState :=
  let r := tpCore1 O sentence s
  if r.1.length < 2 * r.2.2 then ([], r.2.1) else (r.1, r.2.1)

/-!
## The `TextTopics` layer

`_get_topics` and the LDA model itself are external collaborators (the spec
puts topic-model training and transformation out of scope); `compare_series`
is therefore parameterized over the memoized, hence pure, per-collection
topic-mixture function and over the memoized `find_topic_word`.
`np.log` is modelled as an arbitrary rational-valued function of the
(positive integer) frequency, which is all the ranking logic depends on.
-/

/-- `sum([x[wid] for x in self._lda.components_])` in `topic_words`:
total weight of vocabulary column `wid` over all topics. -/
def colSum (components : List (List ℚ)) (wid : Nat) : ℚ :=
  (components.map (fun row => row.getD wid 0)).sum

/-- The relevance `topic_words` assigns to vocabulary index `wid` for topic
`id`: `self._lda.components_[id][wid] / sum([x[wid] for x in components_])`. -/
def relevance (components : List (List ℚ)) (id wid : Nat) : ℚ :=
  (components.getD id []).getD wid 0 / colSum components wid

/-- The mapping `word -> relevance` built by `topic_words(id)` (the dict is
keyed by the vocabulary entry `words[wid]`; a word outside the vocabulary has
no entry). -/
def topic_words_map (components : List (List ℚ)) (vocab : List String)
    (id : Nat) (w : String) : Option ℚ :=
  (vocab.findIdx? (fun v => v == w)).map (fun wid => relevance components id wid)

/-- `_suitable_topic_word(word)`: some morphological analysis has
`CLASS` in `["nimi", "nimisana"]`. -/
def suitable_topic_word (O : Oracle) (w : String) : Bool :=
  (O.analyze w).any (fun m =>
    match m.CLASS with
    | some c => c == "nimi" || c == "nimisana"
    | none => false)

/-- `pd.Series(tokens).value_counts()` as an association list: every distinct
token with its number of occurrences. -/
def value_counts (tokens : List String) : List (String × Nat) :=
  tokens.dedup.map (fun w => (w, tokens.count w))

/-- The index of the aligned product series
`source.map(np.log) * words` in `find_topic_word`: pandas aligns the two
series on the union of their indexes, so the walked candidates are the
distinct collection stems together with the vocabulary words. -/
def ftwCandidates (vocab : List String) (tokens : List String) : List String :=
  tokens.dedup ++ vocab.filter (fun v => !(tokens.dedup.contains v))

/-- Value of the aligned product series at word `w`:
`log(localFreq[w]) * relevance[w]` when `w` is on both indexes, `NaN`
(modelled as `none`) when it is missing from either side. -/
def ftwScore (logf : Nat → ℚ) (components : List (List ℚ)) (vocab : List String)
    (id : Nat) (freq : List (String × Nat)) (w : String) : Option ℚ :=
  match freq.lookup w, topic_words_map components vocab id w with
  | some c, some rel => some (logf c * rel)
  | some _, none => none
  | none, _ => none

/-- Comparator of `counts.sort_values(ascending=False)`: `a` may precede `b`
iff `a` is not strictly below `b`, where `NaN` (`none`) sorts after every
number (`na_position='last'`). -/
def keyGE : Option ℚ → Option ℚ → Bool
  | some x, some y => decide (y ≤ x)
  | some _, none => true
  | none, some _ => false
  | none, none => true

/-- Insertion step of the descending sort of the scored candidates. -/
def insDesc (f : String → Option ℚ) (x : String) : List String → List String
  | [] => [x]
  | y :: ys => if keyGE (f x) (f y) then x :: y :: ys else y :: insDesc f x ys

/-- `counts.sort_values(ascending=False)`: candidates sorted by score
descending with `NaN` entries last. -/
def sortDesc (f : String → Option ℚ) : List String → List String
  | [] => []
  | x :: xs => insDesc f x (sortDesc f xs)

/-- `find_topic_word` after the collection has been tokenized: build the
per-stem frequencies, align them with the topic's word ranking, sort by the
combined score descending, walk the sorted candidates and return the first
suitable word, or raise `RuntimeError("Could not find suitable topic word.")`.
The tokenized collection is passed in as `tokens` (the production of
`self._tokenizer.tokenize("\n\n".join(text))` is the tokenizer layer above). -/
def find_topic_word (O : Oracle) (logf : Nat → ℚ) (components : List (List ℚ))
    (vocab : List String) (tokens : List String) (id : Nat) :
    Except String String :=
  let freq := value_counts tokens
  let f := ftwScore logf components vocab id freq
  let sorted := sortDesc f (ftwCandidates vocab tokens)
  match sorted.find? (fun w => suitable_topic_word O w) with
  | some w => Except.ok w
  | none => Except.error "Could not find suitable topic word."

/-- `np.argmax`: index of the first entry that is greater or equal to every
entry (ties broken by first occurrence); `0` on the empty vector. -/
def argmaxFirst (l : List ℚ) : Nat :=
  l.findIdx (fun x => l.all (fun y => decide (y ≤ x)))

/-- `np.argmin`: index of the first entry that is less than or equal to every
entry (ties broken by first occurrence); `0` on the empty vector. -/
def argminFirst (l : List ℚ) : Nat :=
  l.findIdx (fun x => l.all (fun y => decide (x ≤ y)))

/-- `compare_series(source, target)`: drop the missing entries of both
collections, take the difference of their mean topic mixtures, locate the
extreme topics with `np.argmax` / `np.argmin`, and name each with
`find_topic_word`. `getTopics` stands for the memoized `_get_topics` and
`findWord` for the memoized `find_topic_word`, both pure functions of their
arguments within one `TextTopics` instance. -/
def compare_series (getTopics : List String → List ℚ)
    (findWord : List String → Nat → Except String String)
    (source target : List (Option String)) :
    Except String ((Nat × String) × (Nat × String)) :=
  let src := source.filterMap id
  let tgt := target.filterMap id
  let diffs := (getTopics src).zipWith (fun a b => a - b) (getTopics tgt)
  let topic_max := argmaxFirst diffs
  let topic_min := argminFirst diffs
  match findWord src topic_max with
  | Except.error e => Except.error e
  | Except.ok source_topic =>
    match findWord tgt topic_min with
    | Except.error e => Except.error e
    | Except.ok target_topic =>
        Except.ok ((topic_max, source_topic), (topic_min, target_topic))

/-!
## Concrete oracle stubs used by witnesses and counterexamples
-/

/-- Stub oracle: `aaa`, `bbb`, `ccc` are known nouns; `nopeasti` has only a
stopword-class (adverb) analysis; `yyy`, `zzz` and `qqq` are unknown; only
`zzz` has a spelling suggestion, namely `qqq`, which is itself unknown. -/
def oracleA : Oracle where
  analyze := fun w =>
    if w = "aaa" ∨ w = "bbb" ∨ w = "ccc" then [{ CLASS := some "nimisana", BASEFORM := w }]
    else if w = "nopeasti" then [{ CLASS := some "seikkasana", BASEFORM := "nopea" }]
    else []
  suggest := fun w => if w = "zzz" then ["qqq"] else []

/-- Stub oracle where every word is unknown and the unknown word `zz` gets
the two-word spelling suggestion `"zz z"`, which contains `zz` itself. -/
def oracleC : Oracle where
  analyze := fun _ => []
  suggest := fun w => if w = "zz" then ["zz z"] else []

/-- Stub oracle: `koira` is a known noun, everything else is unknown,
no suggestions. -/
def oracleD : Oracle where
  analyze := fun w =>
    if w = "koira" then [{ CLASS := some "nimisana", BASEFORM := "koira" }] else []
  suggest := fun _ => []

/-!
## Claim C2: the paragraph noise-rejection rule
-/

/-- C2 (amended): `tokenize_paragraph` returns the empty sequence exactly when
`err_count` strictly exceeds half the post-fallback stem count **or** the stem
list itself is empty; at exactly the 50% boundary the paragraph's stems are
returned, not discarded. -/
theorem tokenize_paragraph_noise_rule (O : Oracle) (p : String) (s : TokState) :
    ((tokenize_paragraph1 O p s).1 = [] ↔
      ((tpCore1 O p s).1.length < 2 * (tpCore1 O p s).2.2 ∨ (tpCore1 O p s).1 = []))
    ∧ ((tpCore1 O p s).1.length = 2 * (tpCore1 O p s).2.2 →
        (tokenize_paragraph1 O p s).1 = (tpCore1 O p s).1) := by
  constructor
  · by_cases h : (tpCore1 O p s).1.length < 2 * (tpCore1 O p s).2.2
    · simp [tokenize_paragraph1, h]
    · simp [tokenize_paragraph1, h]
  · intro hb
    have h : ¬ (tpCore1 O p s).1.length < 2 * (tpCore1 O p s).2.2 := by omega
    simp [tokenize_paragraph1, h]

/-- C2 witness: the paragraph `"aaa yyy"` has two post-fallback stems and one
unresolved word (`yyy`, unknown with no suggestion) — exactly the 50% boundary
— and its stems are kept. -/
theorem tokenize_paragraph_noise_rule_witness :
    (tokenize_paragraph1 oracleA "aaa yyy" TokState.init).1 = ["aaa", "yyy"] :=
  ((tokenize_paragraph_noise_rule oracleA "aaa yyy" TokState.init).2
    (by decide)).trans (by decide)

/-- C2 counterexample to the claim as stated: on a paragraph with no word
candidates at all, `tokenize_paragraph` returns the empty sequence even though
the unresolved-word count (0) does not exceed half the stem count (0). -/
theorem tokenize_paragraph_noise_rule_cex :
    (tokenize_paragraph1 oracleA "..." TokState.init).1 = [] ∧
    ¬ ((tpCore1 oracleA "..." TokState.init).1.length <
        2 * (tpCore1 oracleA "..." TokState.init).2.2) := by
  decide

/-!
## Claim C4: determinism of `tokenize_paragraph` across cache states
-/

/-- C4 (code bug): tokenizing the same paragraph twice in a row on the same
tokenizer disagrees. The first pass rejects the suggestion `qqq`'s one-word
paragraph as noise (1 error vs 1 stem) but *caches* `qqq`'s stem; in the
second pass the nested re-tokenization of `qqq` hits the stem cache, counts
0 errors, and now contributes the stem `qqq`, so the second result gains
a word the first did not have. -/
theorem tokenize_paragraph_cache_nondeterminism :
    (tokenize_paragraph1 oracleA "aaa bbb ccc zzz" TokState.init).1
      = ["aaa", "bbb", "ccc"] ∧
    (tokenize_paragraph1 oracleA "aaa bbb ccc zzz"
        (tokenize_paragraph1 oracleA "aaa bbb ccc zzz" TokState.init).2).1
      = ["aaa", "bbb", "ccc", "qqq"] ∧
    (tokenize_paragraph1 oracleA "aaa bbb ccc zzz" TokState.init).1
      ≠ (tokenize_paragraph1 oracleA "aaa bbb ccc zzz"
          (tokenize_paragraph1 oracleA "aaa bbb ccc zzz" TokState.init).2).1 := by
  decide

/-!
## Cache and counter frame lemmas for `_stem`
-/

/-- Looking up the key just inserted in front of an association list. -/
theorem lookup_cons_self {β : Type} (k : String) (v : β) (m : List (String × β)) :
    ((k, v) :: m).lookup k = some v := by
  simp [List.lookup]

/-- Inserting a different key does not change a lookup. -/
theorem lookup_cons_other {β : Type} (k x : String) (v : β) (m : List (String × β))
    (h : x ≠ k) : ((k, v) :: m).lookup x = m.lookup x := by
  have hb : (x == k) = false := beq_eq_false_iff_ne.mpr h
  simp [List.lookup, hb]

/-- The memoized `analyze` never touches the stem cache. -/
theorem analyzeMemo_stem_map (O : Oracle) (s : TokState) (w : String) :
    (analyzeMemo O s w).2.stem_map = s.stem_map := by
  unfold analyzeMemo
  cases s.analysis_cache.lookup w <;> rfl

/-- The memoized `analyze` never calls `suggest`. -/
theorem analyzeMemo_suggest_calls (O : Oracle) (s : TokState) (w : String) :
    (analyzeMemo O s w).2.suggest_calls = s.suggest_calls := by
  unfold analyzeMemo
  cases s.analysis_cache.lookup w <;> rfl

/-- After a memoized `analyze` of `w`, the analysis cache answers for `w`
with exactly the returned analyses. -/
theorem analyzeMemo_cache_lookup_self (O : Oracle) (s : TokState) (w : String) :
    (analyzeMemo O s w).2.analysis_cache.lookup w = some (analyzeMemo O s w).1 := by
  unfold analyzeMemo
  cases h : s.analysis_cache.lookup w with
  | some a => simpa using h
  | none => simp [lookup_cons_self]

/-- A memoized `analyze` of `w` does not change the cache's answer for
another word. -/
theorem analyzeMemo_cache_lookup_other (O : Oracle) (s : TokState) (w x : String)
    (hx : x ≠ w) :
    (analyzeMemo O s w).2.analysis_cache.lookup x = s.analysis_cache.lookup x := by
  unfold analyzeMemo
  cases h : s.analysis_cache.lookup w with
  | some a => rfl
  | none => simpa using lookup_cons_other w x _ s.analysis_cache hx

/-- `_stem` on a word already in the stem cache returns the cached stem and
changes nothing (`use_suggestions=False` version). -/
theorem stem0_cache_hit (O : Oracle) (w st : String) (s : TokState) (err : Nat)
    (h : s.stem_map.lookup w = some st) : stem0 O w s err = ([st], s, err) := by
  simp [stem0, h]

/-- `_stem` on a word already in the stem cache returns the cached stem and
changes nothing (`use_suggestions=True` version). -/
theorem stem1_cache_hit (O : Oracle) (w st : String) (s : TokState) (err : Nat)
    (h : s.stem_map.lookup w = some st) : stem1 O w s err = ([st], s, err) := by
  simp [stem1, h]

/-- The suggestionless `_stem` never calls `suggest`. -/
theorem stem0_suggest_calls (O : Oracle) (w : String) (s : TokState) (err : Nat) :
    (stem0 O w s err).2.1.suggest_calls = s.suggest_calls := by
  cases h : s.stem_map.lookup w with
  | some st => simp [stem0, h]
  | none =>
    cases hA : (analyzeMemo O s w).1 with
    | nil => simp [stem0, h, hA, analyzeMemo_suggest_calls]
    | cons a t =>
      cases hb : firstBaseform (a :: t) <;>
        simp [stem0, h, hA, hb, analyzeMemo_suggest_calls]

/-- Mapping the suggestionless `_stem` over a word list never calls `suggest`. -/
theorem stemWords0_suggest_calls (O : Oracle) (ws : List String) (s : TokState)
    (err : Nat) : (stemWords0 O ws s err).2.1.suggest_calls = s.suggest_calls := by
  induction ws generalizing s err with
  | nil => rfl
  | cons w t ih => simp [stemWords0, ih, stem0_suggest_calls]

/-- The recursive `tokenize_paragraph(·, use_suggestions=False)` call never
calls `suggest`. -/
theorem tokenize_paragraph0_suggest_calls (O : Oracle) (p : String) (s : TokState) :
    (tokenize_paragraph0 O p s).2.suggest_calls = s.suggest_calls := by
  have h2 : (tokenize_paragraph0 O p s).2 = (tpCore0 O p s).2.1 := by
    unfold tokenize_paragraph0
    by_cases h : (tpCore0 O p s).1.length < 2 * (tpCore0 O p s).2.2 <;> simp [h]
  rw [h2]
  simpa [tpCore0] using stemWords0_suggest_calls O (extractWords p) s 0

/-- The suggestionless `_stem` of `w` adds stem-cache entries at key `w` only. -/
theorem stem0_stem_map_other (O : Oracle) (w : String) (s : TokState) (err : Nat)
    (x : String) (hx : x ≠ w) :
    (stem0 O w s err).2.1.stem_map.lookup x = s.stem_map.lookup x := by
  cases h : s.stem_map.lookup w with
  | some st => simp [stem0, h]
  | none =>
    cases hA : (analyzeMemo O s w).1 with
    | nil =>
      simp [stem0, h, hA, lookup_cons_other w x _ _ hx, analyzeMemo_stem_map]
    | cons a t =>
      cases hb : firstBaseform (a :: t) <;>
        simp [stem0, h, hA, hb, lookup_cons_other w x _ _ hx, analyzeMemo_stem_map]

/-- The suggestionless `_stem` of `w` adds analysis-cache entries at key `w`
only. -/
theorem stem0_analysis_cache_other (O : Oracle) (w : String) (s : TokState)
    (err : Nat) (x : String) (hx : x ≠ w) :
    (stem0 O w s err).2.1.analysis_cache.lookup x = s.analysis_cache.lookup x := by
  cases h : s.stem_map.lookup w with
  | some st => simp [stem0, h]
  | none =>
    cases hA : (analyzeMemo O s w).1 with
    | nil => simp [stem0, h, hA, analyzeMemo_cache_lookup_other O s w x hx]
    | cons a t =>
      cases hb : firstBaseform (a :: t) <;>
        simp [stem0, h, hA, hb, analyzeMemo_cache_lookup_other O s w x hx]

/-- Stemming a word list without suggestions only touches cache keys of the
processed words: the stem cache's answer for any other key is unchanged. -/
theorem stemWords0_stem_map_other (O : Oracle) (ws : List String) (s : TokState)
    (err : Nat) (x : String) (hx : x ∉ ws) :
    (stemWords0 O ws s err).2.1.stem_map.lookup x = s.stem_map.lookup x := by
  induction ws generalizing s err with
  | nil => rfl
  | cons w t ih =>
    have hxw : x ≠ w := fun hc => hx (hc ▸ List.mem_cons_self w t)
    have hxt : x ∉ t := fun hc => hx (List.mem_cons_of_mem w hc)
    simp [stemWords0, ih _ _ hxt, stem0_stem_map_other O w s err x hxw]

/-- Stemming a word list without suggestions leaves the analysis cache's
answer for any unprocessed key unchanged. -/
theorem stemWords0_analysis_cache_other (O : Oracle) (ws : List String)
    (s : TokState) (err : Nat) (x : String) (hx : x ∉ ws) :
    (stemWords0 O ws s err).2.1.analysis_cache.lookup x =
      s.analysis_cache.lookup x := by
  induction ws generalizing s err with
  | nil => rfl
  | cons w t ih =>
    have hxw : x ≠ w := fun hc => hx (hc ▸ List.mem_cons_self w t)
    have hxt : x ∉ t := fun hc => hx (List.mem_cons_of_mem w hc)
    simp [stemWords0, ih _ _ hxt, stem0_analysis_cache_other O w s err x hxw]

/-- The recursive suggestion re-tokenization caches only under the
suggestion's own extracted words: the stem cache's answer for any other key
is unchanged. -/
theorem tokenize_paragraph0_stem_map_other (O : Oracle) (p : String)
    (s : TokState) (x : String) (hx : x ∉ extractWords p) :
    (tokenize_paragraph0 O p s).2.stem_map.lookup x = s.stem_map.lookup x := by
  have h2 : (tokenize_paragraph0 O p s).2 = (tpCore0 O p s).2.1 := by
    unfold tokenize_paragraph0
    by_cases h : (tpCore0 O p s).1.length < 2 * (tpCore0 O p s).2.2 <;> simp [h]
  rw [h2]
  simpa [tpCore0] using stemWords0_stem_map_other O (extractWords p) s 0 x hx

/-- The recursive suggestion re-tokenization leaves the analysis cache's
answer for any key outside the suggestion's words unchanged. -/
theorem tokenize_paragraph0_analysis_cache_other (O : Oracle) (p : String)
    (s : TokState) (x : String) (hx : x ∉ extractWords p) :
    (tokenize_paragraph0 O p s).2.analysis_cache.lookup x =
      s.analysis_cache.lookup x := by
  have h2 : (tokenize_paragraph0 O p s).2 = (tpCore0 O p s).2.1 := by
    unfold tokenize_paragraph0
    by_cases h : (tpCore0 O p s).1.length < 2 * (tpCore0 O p s).2.2 <;> simp [h]
  rw [h2]
  simpa [tpCore0] using stemWords0_analysis_cache_other O (extractWords p) s 0 x hx

/-!
## Claim C5: second stemming of the same word
-/

/-- Whenever the analysis is non-empty or no suggestion exists, `_stem`
leaves a stem-cache entry under the word's key holding exactly the stem it
returned. -/
theorem stem1_caches (O : Oracle) (w : String) (s : TokState) (err : Nat)
    (h : (analyzeMemo O s w).1 ≠ [] ∨ (O.suggest w).head? = none) :
    ∃ st, (stem1 O w s err).2.1.stem_map.lookup w = some st ∧
      (stem1 O w s err).1 = [st] := by
  cases hm : s.stem_map.lookup w with
  | some st => exact ⟨st, by simp [stem1, hm], by simp [stem1, hm]⟩
  | none =>
    cases hA : (analyzeMemo O s w).1 with
    | nil =>
      have hs : (O.suggest w).head? = none := by
        rcases h with h | h
        · exact absurd hA h
        · exact h
      exact ⟨lowerStr w, by simp [stem1, hm, hA, hs, lookup_cons_self],
        by simp [stem1, hm, hA, hs]⟩
    | cons a t =>
      cases hb : firstBaseform (a :: t) with
      | some bf =>
          exact ⟨bf, by simp [stem1, hm, hA, hb, lookup_cons_self],
            by simp [stem1, hm, hA, hb]⟩
      | none =>
          exact ⟨lowerStr w, by simp [stem1, hm, hA, hb, lookup_cons_self],
            by simp [stem1, hm, hA, hb]⟩

/-- C5 (amended): for every word whose first stemming leaves a stem-cache
entry — that is, every word with a non-empty analysis and every unknown word
without a spelling suggestion — stemming it a second time within the same
tokenizer returns the identical result and changes nothing: caches, error
counter, and both Voikko call counters are untouched, because the result is
read from the stem cache. -/
theorem stem_second_time_cached (O : Oracle) (w : String) (s : TokState) (err : Nat)
    (h : (analyzeMemo O s w).1 ≠ [] ∨ (O.suggest w).head? = none) :
    stem1 O w (stem1 O w s err).2.1 (stem1 O w s err).2.2 = stem1 O w s err ∧
    ∃ st, (stem1 O w s err).2.1.stem_map.lookup w = some st ∧
      (stem1 O w s err).1 = [st] := by
  obtain ⟨st, h1, h2⟩ := stem1_caches O w s err h
  refine ⟨?_, st, h1, h2⟩
  exact (stem1_cache_hit O w st _ _ h1).trans (by rw [← h2])

/-- C5 witness: `aaa` has a (noun) analysis, so its second stemming on a
fresh tokenizer is a pure cache hit returning the same triple. -/
theorem stem_second_time_cached_witness :
    stem1 oracleA "aaa" (stem1 oracleA "aaa" TokState.init 0).2.1
        (stem1 oracleA "aaa" TokState.init 0).2.2
      = stem1 oracleA "aaa" TokState.init 0 :=
  (stem_second_time_cached oracleA "aaa" TokState.init 0 (by decide)).1

/-- C5 counterexample to the claim as stated ("for every word ... no Oracle
call"): for the unknown word `zzz` with suggestion `qqq`, the second stemming
returns different stems (`[]` vs `["qqq"]`) and performs a second
`voikko.suggest` call. -/
theorem stem_second_time_cached_cex :
    (stem1 oracleA "zzz" TokState.init 0).1 = [] ∧
    (stem1 oracleA "zzz" (stem1 oracleA "zzz" TokState.init 0).2.1
        (stem1 oracleA "zzz" TokState.init 0).2.2).1 = ["qqq"] ∧
    (stem1 oracleA "zzz" TokState.init 0).2.1.suggest_calls = 1 ∧
    (stem1 oracleA "zzz" (stem1 oracleA "zzz" TokState.init 0).2.1
        (stem1 oracleA "zzz" TokState.init 0).2.2).2.1.suggest_calls = 2 := by
  decide

/-!
## Claim C9: analyzable words — first non-stopword base form, fallback
-/

/-- The `for _word in analysis` loop picks exactly the first analysis whose
class is not a stopword class. -/
theorem firstBaseform_eq_find (l : List Analysis) :
    firstBaseform l =
      (l.find? (fun a => !(isStopClass a.CLASS))).map (fun a => lowerStr a.BASEFORM) := by
  induction l with
  | nil => rfl
  | cons a t ih =>
    cases h : isStopClass a.CLASS with
    | true => simp [firstBaseform, h, List.find?, ih]
    | false => simp [firstBaseform, h, List.find?]

/-- C9: for a word with at least one analysis (and no stem-cache entry yet),
`_stem` returns the lowercase base form of the first analysis whose class is
not in `FINNISH_STOPWORD_CLASSES` and stores it in the stem cache under the
word's key, leaving the error counter unchanged; if every analysis has a
stopword class, it returns the lowercase raw word itself — not any analysis's
base form — and still caches that fallback. -/
theorem stem_first_nonstop_baseform (O : Oracle) (w : String) (s : TokState)
    (err : Nat) (h1 : s.stem_map.lookup w = none)
    (h2 : (analyzeMemo O s w).1 ≠ []) :
    (∀ a, (analyzeMemo O s w).1.find? (fun x => !(isStopClass x.CLASS)) = some a →
       stem1 O w s err =
         ([lowerStr a.BASEFORM],
          { (analyzeMemo O s w).2 with
              stem_map := (w, lowerStr a.BASEFORM) :: (analyzeMemo O s w).2.stem_map },
          err))
    ∧ ((analyzeMemo O s w).1.find? (fun x => !(isStopClass x.CLASS)) = none →
       stem1 O w s err =
         ([lowerStr w],
          { (analyzeMemo O s w).2 with
              stem_map := (w, lowerStr w) :: (analyzeMemo O s w).2.stem_map },
          err)) := by
  constructor
  · intro a ha
    have hb : firstBaseform (analyzeMemo O s w).1 = some (lowerStr a.BASEFORM) := by
      rw [firstBaseform_eq_find, ha]
      rfl
    cases hA : (analyzeMemo O s w).1 with
    | nil => exact absurd hA h2
    | cons x t =>
      rw [hA] at hb
      simp [stem1, h1, hA, hb]
  · intro ha
    have hb : firstBaseform (analyzeMemo O s w).1 = none := by
      rw [firstBaseform_eq_find, ha]
      rfl
    cases hA : (analyzeMemo O s w).1 with
    | nil => exact absurd hA h2
    | cons x t =>
      rw [hA] at hb
      simp [stem1, h1, hA, hb]

/-- C9 witness: `nopeasti` has exactly one analysis, of the stopword class
`seikkasana` (adverb), so `_stem` falls back to the lowercase raw word and
caches it. -/
theorem stem_first_nonstop_baseform_witness :
    stem1 oracleA "nopeasti" TokState.init 0 =
      ([lowerStr "nopeasti"],
       { (analyzeMemo oracleA TokState.init "nopeasti").2 with
           stem_map := ("nopeasti", lowerStr "nopeasti")
             :: (analyzeMemo oracleA TokState.init "nopeasti").2.stem_map },
       0) :=
  (stem_first_nonstop_baseform oracleA "nopeasti" TokState.init 0 (by decide)
    (by decide)).2 (by decide)

/-!
## Claim C3: one-level suggestion fallback
-/

/-- `afterSuggest` only bumps the `suggest` counter on the post-analysis
state: the stem cache is untouched. -/
theorem afterSuggest_stem_map (O : Oracle) (s : TokState) (w : String) :
    (afterSuggest O s w).stem_map = s.stem_map := by
  simp [afterSuggest, analyzeMemo_stem_map]

/-- The analysis cache of `afterSuggest` is the post-analysis cache. -/
theorem afterSuggest_analysis_cache (O : Oracle) (s : TokState) (w : String) :
    (afterSuggest O s w).analysis_cache = (analyzeMemo O s w).2.analysis_cache := rfl

/-- C3 (amended): for an unknown word (empty analysis, no stem-cache entry)
with a best suggestion `sg`, `_stem` returns exactly the result of
re-tokenizing `sg` with `use_suggestions=False` and bumps the error counter;
the whole call performs exactly one `suggest` lookup (none happens inside the
recursion, bounding the depth to 1). If the suggestion is a single word that
is itself unknown (and uncached), the recursive call's noise rejection fires
— 1 error against 1 stem — so the word contributes no stems at all: the
result is `[]`, not the lowercase raw suggestion. -/
theorem stem_suggestion_single_level (O : Oracle) (w sg : String) (s : TokState)
    (err : Nat) (h1 : s.stem_map.lookup w = none)
    (h2 : (analyzeMemo O s w).1 = [])
    (h3 : (O.suggest w).head? = some sg) :
    stem1 O w s err =
      ((tokenize_paragraph0 O sg (afterSuggest O s w)).1,
       (tokenize_paragraph0 O sg (afterSuggest O s w)).2, err + 1)
    ∧ (tokenize_paragraph0 O sg (afterSuggest O s w)).2.suggest_calls
        = s.suggest_calls + 1
    ∧ (∀ u, extractWords sg = [u] → s.stem_map.lookup u = none →
        s.analysis_cache.lookup u = none → O.analyze u = [] →
        (stem1 O w s err).1 = []) := by
  have hmain : stem1 O w s err =
      ((tokenize_paragraph0 O sg (afterSuggest O s w)).1,
       (tokenize_paragraph0 O sg (afterSuggest O s w)).2, err + 1) := by
    simp [stem1, h1, h2, h3]
  refine ⟨hmain, ?_, ?_⟩
  · rw [tokenize_paragraph0_suggest_calls]
    simp [afterSuggest, analyzeMemo_suggest_calls]
  · intro u hu hsu hcu hou
    have hlu : (afterSuggest O s w).stem_map.lookup u = none := by
      rw [afterSuggest_stem_map]
      exact hsu
    have hach : (analyzeMemo O (afterSuggest O s w) u).1 = [] := by
      by_cases huw : u = w
      · subst huw
        have hself : (afterSuggest O s u).analysis_cache.lookup u = some [] := by
          rw [afterSuggest_analysis_cache, analyzeMemo_cache_lookup_self, h2]
        simp [analyzeMemo, hself]
      · have hother : (afterSuggest O s w).analysis_cache.lookup u = none := by
          rw [afterSuggest_analysis_cache,
            analyzeMemo_cache_lookup_other O s w u huw]
          exact hcu
        simp [analyzeMemo, hother, hou]
    have hs0 : stem0 O u (afterSuggest O s w) 0 =
        ([lowerStr u],
         { (analyzeMemo O (afterSuggest O s w) u).2 with
             stem_map := (u, lowerStr u)
               :: (analyzeMemo O (afterSuggest O s w) u).2.stem_map },
         1) := by
      simp [stem0, hlu, hach]
    rw [hmain]
    have hlen : ([lowerStr u].filter (fun x => x != "")).length < 2 := by
      have := List.length_filter_le (fun x => x != "") [lowerStr u]
      simp at this
      omega
    simp [tokenize_paragraph0, tpCore0, hu, stemWords0, hs0, hlen]

/-- C3 witness: `zzz` is unknown with best suggestion `qqq`; its stems are
the `use_suggestions=False` re-tokenization of `qqq`, the error counter goes
to 1, and exactly one `suggest` call is made in total. -/
theorem stem_suggestion_single_level_witness :
    stem1 oracleA "zzz" TokState.init 0 =
      ((tokenize_paragraph0 oracleA "qqq" (afterSuggest oracleA TokState.init "zzz")).1,
       (tokenize_paragraph0 oracleA "qqq" (afterSuggest oracleA TokState.init "zzz")).2,
       0 + 1) :=
  (stem_suggestion_single_level oracleA "zzz" "qqq" TokState.init 0 (by decide)
    (by decide) (by decide)).1

/-- C3 counterexample to the claim as stated: `zzz`'s suggestion `qqq` is
itself unknown, and the result is the empty stem list — not the lowercase raw
suggestion `["qqq"]`. -/
theorem stem_suggestion_single_level_cex :
    (stem1 oracleA "zzz" TokState.init 0).1 = [] ∧
    (stem1 oracleA "zzz" TokState.init 0).1 ≠ ["qqq"] := by
  decide

/-!
## Claim C10: no stem-cache entry under a suggested word's own key
-/

/-- Reduction of `_stem` in the unknown-word-with-suggestion branch. -/
theorem stem1_unknown_suggest (O : Oracle) (w sg : String) (s : TokState)
    (err : Nat) (h1 : s.stem_map.lookup w = none)
    (h2 : (analyzeMemo O s w).1 = [])
    (h3 : (O.suggest w).head? = some sg) :
    stem1 O w s err =
      ((tokenize_paragraph0 O sg (afterSuggest O s w)).1,
       (tokenize_paragraph0 O sg (afterSuggest O s w)).2, err + 1) := by
  simp [stem1, h1, h2, h3]

/-- The memoized `analyze` leaves the state unchanged on a cache hit. -/
theorem analyzeMemo_hit_state (O : Oracle) (s : TokState) (w : String)
    (a : List Analysis) (h : s.analysis_cache.lookup w = some a) :
    (analyzeMemo O s w).2 = s := by
  simp [analyzeMemo, h]

/-- C10 (amended): for an unknown word `w` with a best suggestion `sg` whose
extracted words do not include `w` itself, `_stem` leaves no stem-cache entry
under `w`'s own key (only the suggestion's words may be cached) and bumps the
error counter; therefore a second `_stem` of `w` misses the stem cache again,
increments the error counter again, and performs another `voikko.suggest`
call (while `analyze` stays memoized). -/
theorem stem_suggestion_no_cache_entry (O : Oracle) (w sg : String)
    (s : TokState) (err : Nat) (h1 : s.stem_map.lookup w = none)
    (h2 : (analyzeMemo O s w).1 = [])
    (h3 : (O.suggest w).head? = some sg)
    (h4 : w ∉ extractWords sg) :
    (stem1 O w s err).2.1.stem_map.lookup w = none
    ∧ (stem1 O w s err).2.2 = err + 1
    ∧ (stem1 O w (stem1 O w s err).2.1 (stem1 O w s err).2.2).2.2
        = (stem1 O w s err).2.2 + 1
    ∧ (stem1 O w (stem1 O w s err).2.1 (stem1 O w s err).2.2).2.1.suggest_calls
        = (stem1 O w s err).2.1.suggest_calls + 1 := by
  have hmain := stem1_unknown_suggest O w sg s err h1 h2 h3
  have hnoentry : (stem1 O w s err).2.1.stem_map.lookup w = none := by
    rw [hmain]
    have := tokenize_paragraph0_stem_map_other O sg (afterSuggest O s w) w h4
    rw [this, afterSuggest_stem_map]
    exact h1
  have hcache : (stem1 O w s err).2.1.analysis_cache.lookup w = some [] := by
    rw [hmain]
    have := tokenize_paragraph0_analysis_cache_other O sg (afterSuggest O s w) w h4
    rw [this, afterSuggest_analysis_cache, analyzeMemo_cache_lookup_self, h2]
  have hA2 : (analyzeMemo O (stem1 O w s err).2.1 w).1 = [] := by
    simp [analyzeMemo, hcache]
  have hmain2 := stem1_unknown_suggest O w sg (stem1 O w s err).2.1
    (stem1 O w s err).2.2 hnoentry hA2 h3
  refine ⟨hnoentry, by rw [hmain], by rw [hmain2], ?_⟩
  rw [hmain2]
  show (tokenize_paragraph0 O sg
      (afterSuggest O (stem1 O w s err).2.1 w)).2.suggest_calls = _
  rw [tokenize_paragraph0_suggest_calls]
  show ((analyzeMemo O (stem1 O w s err).2.1 w).2.suggest_calls + 1) = _
  rw [analyzeMemo_hit_state O (stem1 O w s err).2.1 w [] hcache]

/-- C10 witness: the unknown `zzz` with suggestion `qqq` gains no stem-cache
entry under the key `zzz`. -/
theorem stem_suggestion_no_cache_entry_witness :
    (stem1 oracleA "zzz" TokState.init 0).2.1.stem_map.lookup "zzz" = none :=
  (stem_suggestion_no_cache_entry oracleA "zzz" "qqq" TokState.init 0 (by decide)
    (by decide) (by decide) (by decide)).1

/-- C10 counterexample to the claim as stated: the unknown word `zz` has the
two-word suggestion `"zz z"`, which contains `zz` itself; re-tokenizing the
suggestion caches the fallback stem of `zz`, so an entry *under the word's
own key* does appear. -/
theorem stem_suggestion_no_cache_entry_cex :
    oracleC.analyze "zz" = [] ∧ (oracleC.suggest "zz").head? = some "zz z" ∧
    (stem1 oracleC "zz" TokState.init 0).2.1.stem_map.lookup "zz" = some "zz" := by
  decide

/-!
## Sortedness of the candidate walk of `find_topic_word`
-/

/-- Strict "is ranked strictly above" order on scores: any number beats
`NaN`, numbers compare as rationals. -/
def scoreLT : Option ℚ → Option ℚ → Prop
  | _, none => False
  | none, some _ => True
  | some x, some y => x < y

/-- The sort comparator is total. -/
theorem keyGE_total (a b : Option ℚ) : keyGE a b = true ∨ keyGE b a = true := by
  cases a <;> cases b <;> simp [keyGE]
  exact le_total _ _

/-- The sort comparator is transitive. -/
theorem keyGE_trans {a b c : Option ℚ} (h1 : keyGE a b = true)
    (h2 : keyGE b c = true) : keyGE a c = true := by
  cases a <;> cases b <;> cases c <;> simp_all [keyGE]
  all_goals exact le_trans h2 h1

/-- The comparator holds exactly when the right score is not strictly above
the left one. -/
theorem keyGE_iff_not_scoreLT (a b : Option ℚ) :
    keyGE a b = true ↔ ¬ scoreLT a b := by
  cases a <;> cases b <;> simp [keyGE, scoreLT]

/-- `scoreLT` is irreflexive. -/
theorem scoreLT_irrefl (a : Option ℚ) : ¬ scoreLT a a := by
  cases a <;> simp [scoreLT]

/-- Membership in an insertion step. -/
theorem mem_insDesc (f : String → Option ℚ) (x y : String) (l : List String) :
    y ∈ insDesc f x l ↔ y = x ∨ y ∈ l := by
  induction l with
  | nil => simp [insDesc]
  | cons a t ih =>
    by_cases h : keyGE (f x) (f a) = true
    · simp [insDesc, h]
    · simp [insDesc, h, ih]
      tauto

/-- Membership is preserved by the descending sort. -/
theorem mem_sortDesc (f : String → Option ℚ) (y : String) (l : List String) :
    y ∈ sortDesc f l ↔ y ∈ l := by
  induction l with
  | nil => simp [sortDesc]
  | cons a t ih => simp [sortDesc, mem_insDesc, ih]

/-- Inserting into a list sorted by the comparator keeps it sorted. -/
theorem pairwise_insDesc (f : String → Option ℚ) (x : String) (l : List String)
    (hl : l.Pairwise (fun a b => keyGE (f a) (f b) = true)) :
    (insDesc f x l).Pairwise (fun a b => keyGE (f a) (f b) = true) := by
  induction l with
  | nil => simp [insDesc]
  | cons a t ih =>
    rcases List.pairwise_cons.mp hl with ⟨ha, ht⟩
    by_cases h : keyGE (f x) (f a) = true
    · rw [show insDesc f x (a :: t) = x :: a :: t by simp [insDesc, h]]
      refine List.pairwise_cons.mpr ⟨?_, hl⟩
      intro y hy
      rcases List.mem_cons.mp hy with rfl | hy'
      · exact h
      · exact keyGE_trans h (ha y hy')
    · rw [show insDesc f x (a :: t) = a :: insDesc f x t by simp [insDesc, h]]
      refine List.pairwise_cons.mpr ⟨?_, ih ht⟩
      intro y hy
      rcases (mem_insDesc f x y t).mp hy with rfl | hy'
      · rcases keyGE_total (f y) (f a) with h1 | h1
        · exact absurd h1 h
        · exact h1
      · exact ha y hy'

/-- The walk order produced by `sort_values(ascending=False)` is sorted under
the comparator. -/
theorem pairwise_sortDesc (f : String → Option ℚ) (l : List String) :
    (sortDesc f l).Pairwise (fun a b => keyGE (f a) (f b) = true) := by
  induction l with
  | nil => simp [sortDesc]
  | cons a t ih => exact pairwise_insDesc f a _ ih

/-- A successful `find?` splits its list into an unsuccessful prefix, the hit,
and a tail. -/
theorem find_split {α : Type} {p : α → Bool} {l : List α} {w : α}
    (h : l.find? p = some w) :
    ∃ l1 l2, l = l1 ++ w :: l2 ∧ (∀ x ∈ l1, p x = false) ∧ p w = true := by
  induction l with
  | nil => simp [List.find?] at h
  | cons a t ih =>
    cases hp : p a with
    | true =>
      rw [List.find?_cons_of_pos _ hp] at h
      obtain rfl : a = w := Option.some_inj.mp h
      exact ⟨[], t, rfl, by simp, hp⟩
    | false =>
      rw [List.find?_cons_of_neg _ (by simp [hp])] at h
      obtain ⟨l1, l2, hsplit, hpre, hw⟩ := ih h
      refine ⟨a :: l1, l2, by rw [hsplit]; rfl, ?_, hw⟩
      intro x hx
      rcases List.mem_cons.mp hx with rfl | hx'
      · exact hp
      · exact hpre x hx'

/-!
## Specification lemmas for the `find_topic_word` walk
-/

/-- `find_topic_word` is the first-suitable walk over the sorted candidates. -/
theorem find_topic_word_eq (O : Oracle) (logf : Nat → ℚ)
    (components : List (List ℚ)) (vocab : List String) (tokens : List String)
    (id : Nat) :
    find_topic_word O logf components vocab tokens id =
      match (sortDesc (ftwScore logf components vocab id (value_counts tokens))
          (ftwCandidates vocab tokens)).find? (fun w => suitable_topic_word O w) with
      | some w => Except.ok w
      | none => Except.error "Could not find suitable topic word." := rfl

/-- If the walk returns a word, that word is suitable, is a candidate, and
every candidate ranked strictly above it is unsuitable. -/
theorem find_topic_word_ok_spec (O : Oracle) (logf : Nat → ℚ)
    (components : List (List ℚ)) (vocab : List String) (tokens : List String)
    (id : Nat) (w : String)
    (h : find_topic_word O logf components vocab tokens id = Except.ok w) :
    suitable_topic_word O w = true ∧ w ∈ ftwCandidates vocab tokens ∧
    ∀ c ∈ ftwCandidates vocab tokens,
      scoreLT (ftwScore logf components vocab id (value_counts tokens) w)
              (ftwScore logf components vocab id (value_counts tokens) c) →
      suitable_topic_word O c = false := by
  rw [find_topic_word_eq] at h
  cases hfind : (sortDesc (ftwScore logf components vocab id (value_counts tokens))
      (ftwCandidates vocab tokens)).find? (fun x => suitable_topic_word O x) with
  | none => rw [hfind] at h; simp at h
  | some w' =>
    rw [hfind] at h
    have hw : w' = w := by simpa using h
    subst hw
    have hsuit : suitable_topic_word O w' = true := by
      simpa using List.find?_some hfind
    have hmem : w' ∈ ftwCandidates vocab tokens :=
      (mem_sortDesc _ _ _).mp (List.mem_of_find?_eq_some hfind)
    refine ⟨hsuit, hmem, ?_⟩
    intro c hc hlt
    obtain ⟨l1, l2, hsplit, hpre, _⟩ := find_split hfind
    have hcL : c ∈ l1 ++ w' :: l2 := by
      rw [← hsplit]
      exact (mem_sortDesc _ _ _).mpr hc
    rcases List.mem_append.mp hcL with hc1 | hc2
    · simpa using hpre c hc1
    · rcases List.mem_cons.mp hc2 with rfl | hc3
      · exact absurd hlt (scoreLT_irrefl _)
      · have hpw := pairwise_sortDesc
          (ftwScore logf components vocab id (value_counts tokens))
          (ftwCandidates vocab tokens)
        rw [hsplit] at hpw
        have hrest := (List.pairwise_append.mp hpw).2.1
        have hge := (List.pairwise_cons.mp hrest).1 c hc3
        exact absurd hlt ((keyGE_iff_not_scoreLT _ _).mp hge)

/-- The walk raises the `RuntimeError` exactly when no candidate at all is a
suitable topic word. -/
theorem find_topic_word_error_iff (O : Oracle) (logf : Nat → ℚ)
    (components : List (List ℚ)) (vocab : List String) (tokens : List String)
    (id : Nat) :
    (find_topic_word O logf components vocab tokens id =
      Except.error "Could not find suitable topic word.") ↔
    ∀ c ∈ ftwCandidates vocab tokens, suitable_topic_word O c = false := by
  rw [find_topic_word_eq]
  cases hfind : (sortDesc (ftwScore logf components vocab id (value_counts tokens))
      (ftwCandidates vocab tokens)).find? (fun x => suitable_topic_word O x) with
  | none =>
    simp only [iff_true_intro rfl, true_iff]
    intro c hc
    have hnone := List.find?_eq_none.mp hfind c ((mem_sortDesc _ _ _).mpr hc)
    simpa using hnone
  | some w' =>
    have hsuit : suitable_topic_word O w' = true := by
      simpa using List.find?_some hfind
    have hmem : w' ∈ ftwCandidates vocab tokens :=
      (mem_sortDesc _ _ _).mp (List.mem_of_find?_eq_some hfind)
    constructor
    · intro hcontra
      simp at hcontra
    · intro hall
      rw [hall w' hmem] at hsuit
      simp at hsuit

/-!
## Claim C1: the candidate walk returns the first suitable word or fails hard
-/

/-- C1: `find_topic_word` walks the candidates in descending combined-score
order (`NaN`-scored candidates last) and returns the first word whose
`_suitable_topic_word` check succeeds — i.e. a word at least one of whose
analyses has class `nimi` (proper noun) or `nimisana` (common noun); every
candidate scored strictly above the returned word is unsuitable. If no
candidate at all is suitable it raises the hard
`"Could not find suitable topic word."` error, and it raises exactly in that
case. -/
theorem find_topic_word_first_suitable (O : Oracle) (logf : Nat → ℚ)
    (components : List (List ℚ)) (vocab : List String) (tokens : List String)
    (id : Nat) :
    (∀ w, find_topic_word O logf components vocab tokens id = Except.ok w →
       suitable_topic_word O w = true ∧ w ∈ ftwCandidates vocab tokens ∧
       ∀ c ∈ ftwCandidates vocab tokens,
         scoreLT (ftwScore logf components vocab id (value_counts tokens) w)
                 (ftwScore logf components vocab id (value_counts tokens) c) →
         suitable_topic_word O c = false)
    ∧ ((find_topic_word O logf components vocab tokens id =
         Except.error "Could not find suitable topic word.") ↔
       ∀ c ∈ ftwCandidates vocab tokens, suitable_topic_word O c = false) :=
  ⟨fun w h => find_topic_word_ok_spec O logf components vocab tokens id w h,
   find_topic_word_error_iff O logf components vocab tokens id⟩

/-- C1 witness: on the one-word collection `["koira"]` with vocabulary
`["koira"]`, the walk returns `koira`, which is suitable. -/
theorem find_topic_word_first_suitable_witness :
    suitable_topic_word oracleD "koira" = true ∧
    "koira" ∈ ftwCandidates ["koira"] ["koira"] := by
  have h := (find_topic_word_first_suitable oracleD (fun n => (n : ℚ)) [[1]]
    ["koira"] ["koira"] 0).1 "koira" (by rfl)
  exact ⟨h.1, h.2.1⟩

/-!
## Claim C8: which words are walked and how they are scored
-/

/-- `value_counts` answers exactly for the distinct tokens, with their
occurrence counts. -/
theorem lookup_value_counts (tokens : List String) (c : String) :
    (value_counts tokens).lookup c =
      if c ∈ tokens.dedup then some (tokens.count c) else none := by
  unfold value_counts
  induction tokens.dedup with
  | nil => simp [List.lookup]
  | cons a t ih =>
    by_cases hca : c = a
    · subst hca
      simp [lookup_cons_self]
    · rw [List.map_cons, lookup_cons_other a c _ _ hca, ih]
      simp [List.mem_cons, hca]

/-- C8 (amended): the walked candidates of `find_topic_word` are the union of
the collection's distinct stems and the vocabulary (pandas aligns the two
series on the union of their indexes). A word present in both gets the
combined score `log(localFreq[word]) * relevance[word]`; a word missing from
either side — in particular a collection word absent from the topic's word
ranking — gets a `NaN` score, is *not* excluded from the walk, and is
returned whenever it is the first suitable word: all number-scored candidates
rank before the `NaN`-scored ones, so that can only happen when every
number-scored candidate is unsuitable. -/
theorem find_topic_word_nan_walk (O : Oracle) (logf : Nat → ℚ)
    (components : List (List ℚ)) (vocab : List String) (tokens : List String)
    (id : Nat) :
    (∀ c, c ∈ ftwCandidates vocab tokens ↔ (c ∈ tokens.dedup ∨ c ∈ vocab))
    ∧ (∀ c q, ftwScore logf components vocab id (value_counts tokens) c = some q →
        c ∈ tokens.dedup ∧ ∃ wid, vocab.findIdx? (fun v => v == c) = some wid ∧
          q = logf (tokens.count c) * relevance components id wid)
    ∧ (∀ c, c ∈ tokens.dedup → topic_words_map components vocab id c = none →
        ftwScore logf components vocab id (value_counts tokens) c = none)
    ∧ (∀ w, find_topic_word O logf components vocab tokens id = Except.ok w →
        ftwScore logf components vocab id (value_counts tokens) w = none →
        ∀ c ∈ ftwCandidates vocab tokens,
          (∃ q, ftwScore logf components vocab id (value_counts tokens) c = some q) →
          suitable_topic_word O c = false) := by
  refine ⟨?_, ?_, ?_, ?_⟩
  · intro c
    by_cases hd : c ∈ tokens <;>
      simp [ftwCandidates, List.mem_append, List.mem_filter, List.mem_dedup, hd]
  · intro c q hq
    unfold ftwScore at hq
    rw [lookup_value_counts] at hq
    by_cases hd : c ∈ tokens.dedup
    · rw [if_pos hd] at hq
      cases hm : topic_words_map components vocab id c with
      | none => rw [hm] at hq; simp at hq
      | some rel =>
        rw [hm] at hq
        obtain ⟨wid, hwid, hrel⟩ : ∃ wid,
            vocab.findIdx? (fun v => v == c) = some wid ∧
            rel = relevance components id wid := by
          unfold topic_words_map at hm
          cases hidx : vocab.findIdx? (fun v => v == c) with
          | none => rw [hidx] at hm; simp at hm
          | some wid =>
            rw [hidx] at hm
            simp at hm
            exact ⟨wid, rfl, hm.symm⟩
        refine ⟨hd, wid, hwid, ?_⟩
        simp at hq
        rw [← hq, hrel]
    · rw [if_neg hd] at hq
      simp at hq
  · intro c hd hm
    unfold ftwScore
    rw [lookup_value_counts, if_pos hd, hm]
  · intro w hok hnan c hc hscored
    obtain ⟨q, hq⟩ := hscored
    have hspec := find_topic_word_ok_spec O logf components vocab tokens id w hok
    refine hspec.2.2 c hc ?_
    rw [hnan, hq]
    simp [scoreLT]

/-- C8 witness: with collection `["koira"]` and vocabulary `["koira"]`, the
word `koira` is scored `log(count) * relevance`. -/
theorem find_topic_word_nan_walk_witness :
    ("koira" : String) ∈ (["koira"] : List String).dedup ∧
    ∃ wid, (["koira"] : List String).findIdx? (fun v => v == "koira") = some wid ∧
      (fun n => (n : ℚ)) 1 * relevance [[1]] 0 0 =
        (fun n => (n : ℚ)) ((["koira"] : List String).count "koira") *
          relevance [[1]] 0 wid :=
  (find_topic_word_nan_walk oracleD (fun n => (n : ℚ)) [[1]] ["koira"] ["koira"]
    0).2.1 "koira" ((fun n => (n : ℚ)) 1 * relevance [[1]] 0 0) (by rfl)

/-- C8 counterexample to the claim as stated: the collection stem `koira` is
absent from the vocabulary `["talo"]`, hence absent from the topic's word
ranking, yet it is walked (with a `NaN` score) and returned. -/
theorem find_topic_word_nan_walk_cex :
    find_topic_word oracleD (fun n => (n : ℚ)) [[1]] ["talo"] ["koira"] 0 =
      Except.ok "koira"
    ∧ topic_words_map [[1]] ["talo"] 0 "koira" = none := by
  constructor
  · rfl
  · rfl

/-!
## Claim C6: comparator symmetry of `compare_series`
-/

/-- Swapping the operands of the element-wise difference negates it. -/
theorem zipWith_sub_swap (a b : List ℚ) :
    b.zipWith (fun x y => x - y) a =
      (a.zipWith (fun x y => x - y) b).map (fun x => -x) := by
  induction a generalizing b with
  | nil => cases b <;> simp
  | cons x xs ih =>
    cases b with
    | nil => simp
    | cons y ys => simp [ih ys, neg_sub]

/-- `findIdx` over a mapped list. -/
theorem findIdx_map_comp {α β : Type} (f : α → β) (p : β → Bool) (l : List α) :
    (l.map f).findIdx p = l.findIdx (fun x => p (f x)) := by
  induction l with
  | nil => rfl
  | cons a t ih => simp [List.findIdx_cons, ih]

/-- `np.argmin` of the negated vector is `np.argmax` of the vector, including
the first-occurrence tie-break. -/
theorem argminFirst_neg (l : List ℚ) :
    argminFirst (l.map (fun x => -x)) = argmaxFirst l := by
  unfold argminFirst argmaxFirst
  rw [findIdx_map_comp]
  congr 1
  funext x
  rw [List.all_map]
  congr 1
  funext y
  simp only [Function.comp]
  exact decide_eq_decide.mpr neg_le_neg_iff

/-- `np.argmax` of the negated vector is `np.argmin` of the vector, including
the first-occurrence tie-break. -/
theorem argmaxFirst_neg (l : List ℚ) :
    argmaxFirst (l.map (fun x => -x)) = argminFirst l := by
  unfold argminFirst argmaxFirst
  rw [findIdx_map_comp]
  congr 1
  funext x
  rw [List.all_map]
  congr 1
  funext y
  simp only [Function.comp]
  exact decide_eq_decide.mpr neg_le_neg_iff

/-- C6: `compare_series(A, B)`'s max-topic pair is `compare_series(B, A)`'s
min-topic pair (and vice versa): the difference vector negates under the
argument swap, `np.argmax`/`np.argmin` both break ties at the first
occurrence, and the memoized `find_topic_word` names the same topic of the
same collection identically. -/
theorem compare_series_symm (getTopics : List String → List ℚ)
    (findWord : List String → Nat → Except String String)
    (A B : List (Option String)) (p q : Nat × String)
    (h : compare_series getTopics findWord A B = Except.ok (p, q)) :
    compare_series getTopics findWord B A = Except.ok (q, p) := by
  simp only [compare_series] at h ⊢
  rw [zipWith_sub_swap (getTopics (A.filterMap id)) (getTopics (B.filterMap id)),
    argminFirst_neg, argmaxFirst_neg]
  cases h1 : findWord (A.filterMap id)
      (argmaxFirst ((getTopics (A.filterMap id)).zipWith (fun a b => a - b)
        (getTopics (B.filterMap id)))) with
  | error e => rw [h1] at h; simp at h
  | ok w1 =>
    rw [h1] at h
    cases h2 : findWord (B.filterMap id)
        (argminFirst ((getTopics (A.filterMap id)).zipWith (fun a b => a - b)
          (getTopics (B.filterMap id)))) with
    | error e => rw [h2] at h; simp at h
    | ok w2 =>
      rw [h2] at h
      simp only [Except.ok.injEq, Prod.mk.injEq] at h
      obtain ⟨hp, hq⟩ := h
      subst hp
      subst hq
      simp

/-- Topic-mixture stub used by the comparator witness: collection `["x"]` has
mean mixture `[1, 1, 0]` (a first-occurrence tie between topics 0 and 1),
anything else `[0, 0, 2]`. -/
def gTopicsW : List String → List ℚ := fun l => if l = ["x"] then [1, 1, 0] else [0, 0, 2]

/-- Topic-word stub used by the comparator witness. -/
def fWordW : List String → Nat → Except String String := fun _ _ => Except.ok "w"

/-- C6 witness: with diff vector `[1, 1, -2]` (max tied between topics 0 and
1, broken to 0), `compare_series(A, B) = ((0, w), (2, w))` and
`compare_series(B, A)` returns the swapped pairs. -/
theorem compare_series_symm_witness :
    compare_series gTopicsW fWordW [some "y"] [some "x"] =
      Except.ok ((2, "w"), (0, "w")) :=
  compare_series_symm gTopicsW fWordW [some "x"] [some "y"] (0, "w") (2, "w")
    (by
      have p1 : ((1 : ℚ) ≤ 1) := le_refl 1
      have p2 : ((-2 : ℚ) ≤ 1) := by norm_num
      have p3 : ¬ ((1 : ℚ) ≤ -2) := by norm_num
      have p4 : ((-2 : ℚ) ≤ -2) := le_refl _
      simp [compare_series, gTopicsW, fWordW, argmaxFirst, argminFirst,
        List.findIdx_cons, sub_zero, zero_sub, p1, p2, p3, p4])

/-!
## Claim C7: normalization of the topic-word relevance scores
-/

/-- `getD` of a list of non-negative rationals is non-negative. -/
theorem getD_nonneg (l : List ℚ) (h : ∀ x ∈ l, 0 ≤ x) (i : Nat) :
    0 ≤ l.getD i 0 := by
  induction l generalizing i with
  | nil => simp [List.getD]
  | cons a t ih =>
    cases i with
    | zero => exact h a (List.mem_cons_self a t)
    | succ n => simpa using ih (fun x hx => h x (List.mem_cons_of_mem a hx)) n

/-- Every entry read from a non-negative component matrix is non-negative. -/
theorem rowGetD_nonneg (M : List (List ℚ)) (h : ∀ row ∈ M, ∀ x ∈ row, 0 ≤ x)
    (i wid : Nat) : 0 ≤ (M.getD i []).getD wid 0 := by
  induction M generalizing i with
  | nil => simp [List.getD]
  | cons r t ih =>
    cases i with
    | zero => exact getD_nonneg r (h r (List.mem_cons_self r t)) wid
    | succ n => simpa using ih (fun row hr => h row (List.mem_cons_of_mem r hr)) n

/-- The column total of `topic_words` as a sum over the topic indexes. -/
theorem colSum_eq_sum_range (M : List (List ℚ)) (wid : Nat) :
    colSum M wid = ∑ i ∈ Finset.range M.length, (M.getD i []).getD wid 0 := by
  induction M with
  | nil => simp [colSum]
  | cons r t ih =>
    rw [show colSum (r :: t) wid = r.getD wid 0 + colSum t wid by
      simp [colSum]]
    rw [List.length_cons, Finset.sum_range_succ']
    simp only [List.getD_cons_succ, List.getD_cons_zero]
    rw [ih]
    exact add_comm _ _

/-- C7: with a non-negative component matrix and a positive column total,
every per-topic relevance `componentMatrix[topic][word] / Σ_topics
componentMatrix[topic'][word]` lies in `[0, 1]`, and over rational
arithmetic the relevances of one word sum to exactly 1 across all topics. -/
theorem topic_words_normalized (M : List (List ℚ)) (id wid : Nat)
    (hnn : ∀ row ∈ M, ∀ x ∈ row, 0 ≤ x)
    (hid : id < M.length)
    (hpos : 0 < colSum M wid) :
    0 ≤ relevance M id wid ∧ relevance M id wid ≤ 1 ∧
    ∑ i ∈ Finset.range M.length, relevance M i wid = 1 := by
  have hent : ∀ i, 0 ≤ (M.getD i []).getD wid 0 := fun i => rowGetD_nonneg M hnn i wid
  refine ⟨div_nonneg (hent id) hpos.le, ?_, ?_⟩
  · rw [relevance, div_le_one hpos, colSum_eq_sum_range]
    exact Finset.single_le_sum (fun i _ => hent i) (Finset.mem_range.mpr hid)
  · have hsum : ∑ i ∈ Finset.range M.length, relevance M i wid
        = (∑ i ∈ Finset.range M.length, (M.getD i []).getD wid 0) / colSum M wid := by
      rw [Finset.sum_div]
      rfl
    rw [hsum, ← colSum_eq_sum_range]
    exact div_self (ne_of_gt hpos)

/-- C7 witness: for the component matrix `[[1], [1]]` and word 0,
each relevance is in `[0, 1]` and the two relevances sum to 1. -/
theorem topic_words_normalized_witness :
    0 ≤ relevance [[(1 : ℚ)], [1]] 0 0 ∧ relevance [[(1 : ℚ)], [1]] 0 0 ≤ 1 ∧
    ∑ i ∈ Finset.range ([[(1 : ℚ)], [1]] : List (List ℚ)).length,
      relevance [[(1 : ℚ)], [1]] i 0 = 1 :=
  topic_words_normalized [[(1 : ℚ)], [1]] 0 0
    (by
      intro row hrow x hx
      have hr : row = [1] := by simpa using hrow
      subst hr
      have hx1 : x = 1 := by simpa using hx
      rw [hx1]
      norm_num)
    (by norm_num)
    (by
      rw [show colSum [[(1 : ℚ)], [1]] 0 = 1 + (1 + 0) by simp [colSum]]
      norm_num)
